import Mathlib

/-!
Verification of the qmsh Blender exporter (`src/scripts/blender/export_qmsh.py`)
against its natural-language specification.

Shallow embedding conventions:
* Python floats are modelled as rationals (ℚ); `round(x, 6)` becomes an exact
  ties-to-even rounding at six decimal places over ℚ.
* A Python function that can raise (`IndexError` on list indexing) returns
  `Option`, with `none` for the raised exception.
* `json.dumps(d, sort_keys=True, indent=i)` is modelled by an explicit JSON
  value tree, a recursive key sort, and two renderers: `indent=None` (default
  separators `", "` and `": "`) and `indent=2` (item separator `","`,
  key separator `": "`, newline-and-indent layout, empty containers inline).
* The Blender operator `execute` is modelled as a pure function from the
  active object (or `none`) and the sparse flag to its observable outcome:
  the log message emitted, the file content written (if any), and the
  returned status; the decorative banner prints are elided.
-/

/-- A vertex as read from the host mesh: `vert.co` and `vert.normal`,
each a 3-vector. -/
structure RawVertex where
  co : ℚ × ℚ × ℚ
  normal : ℚ × ℚ × ℚ
  deriving DecidableEq, Repr

/-- The host mesh object (`msh`): name, vertices, polygons (each an ordered
list of vertex indices) and the flattened loop sequence
(`msh.loops[k].vertex_index`). -/
structure RawMesh where
  name : String
  vertices : List RawVertex
  polygons : List (List ℕ)
  loops : List ℕ
  deriving DecidableEq, Repr

/-- Floor of a rational, computably (numerator by denominator in integer
division; the denominator is positive). -/
def qfloor (q : ℚ) : ℤ := q.num / q.den

/-- Round a rational to the nearest integer, ties to even
(the tie-breaking rule of Python's `round`). -/
def roundHalfEven (q : ℚ) : ℤ :=
  let f := qfloor q
  let r := q - f
  if r < 1/2 then f
  else if 1/2 < r then f + 1
  else if f % 2 = 0 then f else f + 1

/-- `round_(x)` from the source: `round(x, 6)`, i.e. rounding to six decimal
places (ties to even over ℚ). -/
def round_ (x : ℚ) : ℚ := (roundHalfEven (x * 10^6) : ℚ) / 10^6

/-- `hasOnlyTris`: iterate the polygons, return `False` as soon as one has
more than 3 vertices, else `True`. -/
def hasOnlyTrisGo : List (List ℕ) → Bool
  | [] => true
  | p :: t => if p.length > 3 then false else hasOnlyTrisGo t

/-- `hasOnlyTris(msh)` from the source. -/
def hasOnlyTris (msh : RawMesh) : Bool := hasOnlyTrisGo msh.polygons

/-- One entry of the `vs` list built by `toQuaazarMesh`:
`[pos, nor, []]` with `pos`/`nor` the rounded 3-vectors and the reserved
extra sequence. -/
structure QVert where
  pos : ℚ × ℚ × ℚ
  nor : ℚ × ℚ × ℚ
  extra : List ℚ
  deriving DecidableEq, Repr

/-- The vertex entry `[ [round_(co0),round_(co1),round_(co2)],
[round_(n0),round_(n1),round_(n2)], [] ]` built for one raw vertex. -/
def qvOfRaw (v : RawVertex) : QVert :=
  { pos := (round_ v.co.1, round_ v.co.2.1, round_ v.co.2.2)
    nor := (round_ v.normal.1, round_ v.normal.2.1, round_ v.normal.2.2)
    extra := [] }

/-- The `QuaazarMesh` class: the `vs` and `vg` lists. -/
structure QuaazarMesh where
  vertices : List QVert
  vgroup : List (ℕ × ℕ × ℕ)
  deriving DecidableEq, Repr

/-- The vertex-group loop of `toQuaazarMesh`:
`while i < ll: vg.append([loops[i], loops[i+1], loops[i+2]]); i += 3`.
Indexing past the end (`loops[i+1]` or `loops[i+2]` with the index out of
range) raises `IndexError`, modelled by `none`. -/
def buildVG (loops : List ℕ) (i : ℕ) : Option (List (ℕ × ℕ × ℕ)) :=
  if _h : i < loops.length then
    match loops[i]?, loops[i+1]?, loops[i+2]? with
    | some a, some b, some c => (buildVG loops (i+3)).map (fun t => (a, b, c) :: t)
    | _, _, _ => none
  else
    some []
  termination_by loops.length - i
  decreasing_by omega

/-- `toQuaazarMesh(msh)` from the source: build the rounded vertex entries in
order, then the triangle list from loop strides of three; `none` when the
loop walk raises `IndexError`. -/
def toQuaazarMesh (msh : RawMesh) : Option QuaazarMesh :=
  (buildVG msh.loops 0).map (fun vg => { vertices := msh.vertices.map qvOfRaw, vgroup := vg })

/-- A JSON value as handled by `json.dumps` here: booleans, Python ints,
Python floats (modelled as ℚ), strings, arrays and objects. -/
inductive JVal where
  | jbool (b : Bool)
  | jint (n : ℕ)
  | jflt (q : ℚ)
  | jstr (s : String)
  | jarr (xs : List JVal)
  | jobj (kvs : List (String × JVal))

/-- Decimal rendering of a Python float holding a value `z / 10^6`
(the shape every rounded component has): integer part, a point, and the
fractional digits with trailing zeros stripped, at least one digit kept
(`repr` of such a float in the host language). -/
def renderFloat (q : ℚ) : String :=
  let sign := if q < 0 then "-" else ""
  let a : ℚ := |q|
  let n : ℕ := (qfloor (a * 10^6)).toNat
  let ip : ℕ := n / 10^6
  let fp : ℕ := n % 10^6
  let fs := toString fp
  let digits := String.mk (List.replicate (6 - fs.length) '0') ++ fs
  let stripped := String.mk (digits.toList.reverse.dropWhile (fun c => c = '0')).reverse
  let frac := if stripped = "" then "0" else stripped
  sign ++ toString ip ++ "." ++ frac

/-- Lexicographic order on character lists by code point (the order Python's
`sorted` uses on strings). -/
def listLexLe : List Char → List Char → Bool
  | [], _ => true
  | _ :: _, [] => false
  | a :: as, b :: bs =>
      if a.toNat < b.toNat then true
      else if b.toNat < a.toNat then false
      else listLexLe as bs

/-- String order by code points, computably. -/
def strLe (a b : String) : Bool := listLexLe a.toList b.toList

/-- Insert a key/value pair into a key-sorted association list. -/
def insertKV (k : String) (v : JVal) : List (String × JVal) → List (String × JVal)
  | [] => [(k, v)]
  | (k2, v2) :: t => if strLe k k2 then (k, v) :: (k2, v2) :: t else (k2, v2) :: insertKV k v t

/-- Insertion sort of object entries by key (the effect of `sort_keys=True`
at one object level). -/
def sortKVs : List (String × JVal) → List (String × JVal)
  | [] => []
  | (k, v) :: t => insertKV k v (sortKVs t)

mutual
/-- `sort_keys=True`: recursively sort the keys of every object. -/
def sortObjs : JVal → JVal
  | .jbool b => .jbool b
  | .jint n => .jint n
  | .jflt q => .jflt q
  | .jstr s => .jstr s
  | .jarr xs => .jarr (sortObjsList xs)
  | .jobj kvs => .jobj (sortKVs (sortObjsKVs kvs))

/-- `sortObjs` mapped over an array's elements. -/
def sortObjsList : List JVal → List JVal
  | [] => []
  | v :: t => sortObjs v :: sortObjsList t

/-- `sortObjs` mapped over an object's values. -/
def sortObjsKVs : List (String × JVal) → List (String × JVal)
  | [] => []
  | (k, v) :: t => (k, sortObjs v) :: sortObjsKVs t
end

mutual
/-- `json.dumps` with `indent=None`: one line, separators `", "` and `": "`. -/
def renderC : JVal → String
  | .jbool b => if b then "true" else "false"
  | .jint n => toString n
  | .jflt q => renderFloat q
  | .jstr s => "\"" ++ s ++ "\""
  | .jarr xs => "[" ++ renderCList xs ++ "]"
  | .jobj kvs => "\x7b" ++ renderCObj kvs ++ "\x7d"

/-- Array elements, `indent=None`. -/
def renderCList : List JVal → String
  | [] => ""
  | [v] => renderC v
  | v :: t => renderC v ++ ", " ++ renderCList t

/-- Object entries, `indent=None`. -/
def renderCObj : List (String × JVal) → String
  | [] => ""
  | [(k, v)] => "\"" ++ k ++ "\": " ++ renderC v
  | (k, v) :: t => "\"" ++ k ++ "\": " ++ renderC v ++ ", " ++ renderCObj t
end

/-- `d * 2` spaces of indentation. -/
def ind (d : ℕ) : String := String.mk (List.replicate (2 * d) ' ')

mutual
/-- `json.dumps` with `indent=2`: containers break across lines, items
indented two more spaces per level, item separator `","` + newline, key
separator `": "`; empty containers stay inline. `d` is the depth of the
value being rendered. -/
def renderP : JVal → ℕ → String
  | .jbool b, _ => if b then "true" else "false"
  | .jint n, _ => toString n
  | .jflt q, _ => renderFloat q
  | .jstr s, _ => "\"" ++ s ++ "\""
  | .jarr [], _ => "[]"
  | .jarr (v :: t), d => "[\n" ++ renderPList (v :: t) (d+1) ++ "\n" ++ ind d ++ "]"
  | .jobj [], _ => "\x7b\x7d"
  | .jobj (kv :: t), d => "\x7b\n" ++ renderPObj (kv :: t) (d+1) ++ "\n" ++ ind d ++ "\x7d"

/-- Array elements, `indent=2`, each on its own line at depth `d`. -/
def renderPList : List JVal → ℕ → String
  | [], _ => ""
  | [v], d => ind d ++ renderP v d
  | v :: t, d => ind d ++ renderP v d ++ ",\n" ++ renderPList t d

/-- Object entries, `indent=2`, each on its own line at depth `d`. -/
def renderPObj : List (String × JVal) → ℕ → String
  | [], _ => ""
  | [(k, v)], d => ind d ++ "\"" ++ k ++ "\": " ++ renderP v d
  | (k, v) :: t, d => ind d ++ "\"" ++ k ++ "\": " ++ renderP v d ++ ",\n" ++ renderPObj t d
end

/-- The JSON value for one vertex entry `[pos, nor, extra]`. -/
def jsonOfQVert (v : QVert) : JVal :=
  .jarr [ .jarr [.jflt v.pos.1, .jflt v.pos.2.1, .jflt v.pos.2.2]
        , .jarr [.jflt v.nor.1, .jflt v.nor.2.1, .jflt v.nor.2.2]
        , .jarr (v.extra.map .jflt) ]

/-- The JSON value for one triangle entry `[i0, i1, i2]`. -/
def jsonOfTri (t : ℕ × ℕ × ℕ) : JVal :=
  .jarr [.jint t.1, .jint t.2.1, .jint t.2.2]

/-- The dict `d` built by `QuaazarMesh.toJSON`, in its literal key order. -/
def meshDict (m : QuaazarMesh) : JVal :=
  .jobj [ ("vertices", .jobj [ ("interleaved", .jbool true)
                             , ("values", .jarr (m.vertices.map jsonOfQVert)) ])
        , ("vgroup", .jobj [ ("grouping", .jstr "triangles")
                           , ("triangles", .jarr (m.vgroup.map jsonOfTri)) ]) ]

/-- `json.dumps(d, sort_keys=True, indent=i)` where `i = 2 if sparse else None`
(the source's line 71: the indent is applied when `sparse` is true). -/
def jdumps (d : JVal) (sparse : Bool) : String :=
  if sparse then renderP (sortObjs d) 0 else renderC (sortObjs d)

/-- `QuaazarMesh.toJSON(self, sparse)` from the source. -/
def QuaazarMesh.toJSON (m : QuaazarMesh) (sparse : Bool) : String :=
  jdumps (meshDict m) sparse

/-- Log levels of the operator's messages (`E:` / `W:` / `I:` prints). -/
inductive LogLevel where
  | error
  | warning
  | info
  deriving DecidableEq, Repr

/-- One logged message: level and text. -/
structure Msg where
  level : LogLevel
  text : String
  deriving DecidableEq, Repr

/-- Observable outcome of `QuaazarMeshExporter.execute`: the messages logged,
the file content written (`none` when no file is written), and the returned
status (`none` when an exception escapes before the `return`). -/
structure ExecOutcome where
  msgs : List Msg
  fileWritten : Option String
  status : Option String
  deriving DecidableEq, Repr

/-- `QuaazarMeshExporter.execute`: no active object reports an error; a mesh
that is not all-triangles reports a warning naming it; otherwise the info
message is logged, the mesh converted, and its JSON written to the file.
When the conversion raises (loop length not a multiple of 3) the exception
escapes after the info print, before any file is opened. -/
def execute (activeObject : Option RawMesh) (sparse : Bool) : ExecOutcome :=
  match activeObject with
  | none =>
      { msgs := [⟨.error, "no mesh selected"⟩], fileWritten := none, status := some "FINISHED" }
  | some msh =>
      if !hasOnlyTris msh then
        { msgs := [⟨.warning, "\x27" ++ msh.name ++ "\x27 is not elegible to export, please convert quadrangles to triangles"⟩]
          fileWritten := none, status := some "FINISHED" }
      else
        match toQuaazarMesh msh with
        | none =>
            { msgs := [⟨.info, "exporting \x27" ++ msh.name ++ "\x27"⟩]
              fileWritten := none, status := none }
        | some qm =>
            { msgs := [⟨.info, "exporting \x27" ++ msh.name ++ "\x27"⟩]
              fileWritten := some (qm.toJSON sparse), status := some "FINISHED" }

/-- Specification-side description of the loop walk: group the sequence into
consecutive strides of three, in order, ignoring a trailing remainder. -/
def strideTriples : List ℕ → List (ℕ × ℕ × ℕ)
  | a :: b :: c :: t => (a, b, c) :: strideTriples t
  | _ => []

theorem strideTriples_length (l : List ℕ) : (strideTriples l).length = l.length / 3 := by
  induction l using strideTriples.induct with
  | case1 a b c t ih => simp [strideTriples, ih]; omega
  | case2 l h => cases l with
    | nil => simp [strideTriples]
    | cons a t => cases t with
      | nil => simp [strideTriples]
      | cons b u => cases u with
        | nil => simp [strideTriples]
        | cons c v => exact absurd rfl (h a b c v)

theorem buildVG_eq_aux (n : ℕ) : ∀ (loops : List ℕ) (i : ℕ), loops.length - i ≤ n →
    buildVG loops i =
      if 3 ∣ (loops.length - i) then some (strideTriples (loops.drop i)) else none := by
  induction n with
  | zero =>
      intro loops i hle
      have hge : loops.length ≤ i := by omega
      have h0 : loops.length - i = 0 := by omega
      rw [buildVG, dif_neg (show ¬ i < loops.length by omega), h0,
        if_pos (dvd_zero 3), List.drop_eq_nil_of_le hge]
      rfl
  | succ n ih =>
      intro loops i hle
      by_cases h : i < loops.length
      · rw [buildVG]
        by_cases h2 : i + 2 < loops.length
        · have h1 : i + 1 < loops.length := by omega
          rw [dif_pos h, List.getElem?_eq_getElem h, List.getElem?_eq_getElem h1,
            List.getElem?_eq_getElem h2]
          have hdrop : loops.drop i = loops[i] :: loops[i+1] :: loops[i+2] :: loops.drop (i+3) := by
            rw [List.drop_eq_getElem_cons h, List.drop_eq_getElem_cons h1,
              List.drop_eq_getElem_cons h2]
          show (buildVG loops (i+3)).map (fun t => (loops[i], loops[i+1], loops[i+2]) :: t) = _
          rw [ih loops (i + 3) (by omega)]
          by_cases hd : 3 ∣ (loops.length - i)
          · have hd3 : 3 ∣ (loops.length - (i + 3)) := by omega
            rw [if_pos hd3, if_pos hd, Option.map_some', hdrop]
            rfl
          · have hd3 : ¬ 3 ∣ (loops.length - (i + 3)) := by omega
            rw [if_neg hd3, if_neg hd, Option.map_none']
        · have hnd : ¬ 3 ∣ (loops.length - i) := by omega
          rw [dif_pos h, List.getElem?_eq_getElem h,
            List.getElem?_eq_none (show loops.length ≤ i + 2 by omega)]
          by_cases h1 : i + 1 < loops.length
          · rw [List.getElem?_eq_getElem h1, if_neg hnd]
          · rw [List.getElem?_eq_none (show loops.length ≤ i + 1 by omega), if_neg hnd]
      · have hge : loops.length ≤ i := by omega
        have h0 : loops.length - i = 0 := by omega
        rw [buildVG, dif_neg (show ¬ i < loops.length by omega), h0,
          if_pos (dvd_zero 3), List.drop_eq_nil_of_le hge]
        rfl

theorem buildVG_characterization (loops : List ℕ) :
    buildVG loops 0 =
      if 3 ∣ loops.length then some (strideTriples loops) else none := by
  have := buildVG_eq_aux (loops.length) loops 0 (by omega)
  simpa using this

theorem toQuaazarMesh_eq (msh : RawMesh) :
    toQuaazarMesh msh =
      if 3 ∣ msh.loops.length then
        some { vertices := msh.vertices.map qvOfRaw, vgroup := strideTriples msh.loops }
      else none := by
  rw [toQuaazarMesh, buildVG_characterization]
  by_cases hd : 3 ∣ msh.loops.length <;> simp [hd]

theorem sortObjsList_map_jflt (l : List ℚ) :
    sortObjsList (l.map JVal.jflt) = l.map JVal.jflt := by
  induction l with
  | nil => rfl
  | cons q t ih => simp [sortObjsList, sortObjs, ih]

theorem sortObjs_jsonOfQVert (v : QVert) : sortObjs (jsonOfQVert v) = jsonOfQVert v := by
  simp [jsonOfQVert, sortObjs, sortObjsList, sortObjsList_map_jflt]

theorem sortObjs_jsonOfTri (t : ℕ × ℕ × ℕ) : sortObjs (jsonOfTri t) = jsonOfTri t := by
  simp [jsonOfTri, sortObjs, sortObjsList]

theorem sortObjsList_fixed (l : List JVal) (h : ∀ x ∈ l, sortObjs x = x) :
    sortObjsList l = l := by
  induction l with
  | nil => rfl
  | cons v t ih =>
      rw [sortObjsList, h v (by simp), ih (fun x hx => h x (by simp [hx]))]

/-- `sort_keys=True` leaves the literal dict of `toJSON` unchanged: its keys
are already alphabetical at every level and its arrays hold no objects. -/
theorem sortObjs_meshDict (m : QuaazarMesh) : sortObjs (meshDict m) = meshDict m := by
  have hv : sortObjsList (m.vertices.map jsonOfQVert) = m.vertices.map jsonOfQVert :=
    sortObjsList_fixed _
      (by intro x hx; obtain ⟨v, _, rfl⟩ := List.mem_map.mp hx; exact sortObjs_jsonOfQVert v)
  have hg : sortObjsList (m.vgroup.map jsonOfTri) = m.vgroup.map jsonOfTri :=
    sortObjsList_fixed _
      (by intro x hx; obtain ⟨t, _, rfl⟩ := List.mem_map.mp hx; exact sortObjs_jsonOfTri t)
  have e1 : strLe "vertices" "vgroup" = true := by decide
  have e2 : strLe "grouping" "triangles" = true := by decide
  have e3 : strLe "interleaved" "values" = true := by decide
  simp [meshDict, sortObjs, sortObjsKVs, sortKVs, insertKV, hv, hg, e1, e2, e3]

/-- `toJSON` is exactly the chosen renderer applied to the literal dict. -/
theorem toJSON_eq (m : QuaazarMesh) (sparse : Bool) :
    m.toJSON sparse =
      if sparse then renderP (meshDict m) 0 else renderC (meshDict m) := by
  rw [QuaazarMesh.toJSON, jdumps, sortObjs_meshDict]

/-- One object level has its keys in (weakly) ascending code-point order. -/
def keyChain : List (String × JVal) → Bool
  | [] => true
  | [_] => true
  | (k1, _) :: (k2, v2) :: t => strLe k1 k2 && keyChain ((k2, v2) :: t)

mutual
/-- Every object in the tree, at every nesting level, has its keys in
ascending (alphabetical) order. -/
def keysSortedB : JVal → Bool
  | .jbool _ => true
  | .jint _ => true
  | .jflt _ => true
  | .jstr _ => true
  | .jarr xs => keysSortedListB xs
  | .jobj kvs => keyChain kvs && keysSortedKVsB kvs

/-- `keysSortedB` over an array's elements. -/
def keysSortedListB : List JVal → Bool
  | [] => true
  | v :: t => keysSortedB v && keysSortedListB t

/-- `keysSortedB` over an object's values. -/
def keysSortedKVsB : List (String × JVal) → Bool
  | [] => true
  | (_, v) :: t => keysSortedB v && keysSortedKVsB t
end

theorem keysSortedListB_map_jflt (l : List ℚ) :
    keysSortedListB (l.map JVal.jflt) = true := by
  induction l with
  | nil => rfl
  | cons q t ih => simp [keysSortedListB, keysSortedB, ih]

theorem keysSortedB_jsonOfQVert (v : QVert) : keysSortedB (jsonOfQVert v) = true := by
  simp [jsonOfQVert, keysSortedB, keysSortedListB, keysSortedListB_map_jflt]

theorem keysSortedB_jsonOfTri (t : ℕ × ℕ × ℕ) : keysSortedB (jsonOfTri t) = true := by
  simp [jsonOfTri, keysSortedB, keysSortedListB]

theorem keysSortedListB_all (l : List JVal) (h : ∀ x ∈ l, keysSortedB x = true) :
    keysSortedListB l = true := by
  induction l with
  | nil => rfl
  | cons v t ih =>
      rw [keysSortedListB, h v (by simp), ih (fun x hx => h x (by simp [hx]))]
      rfl

/-- The literal dict of `toJSON` has alphabetically sorted keys at every
nesting level, for every mesh. -/
theorem keysSortedB_meshDict (m : QuaazarMesh) : keysSortedB (meshDict m) = true := by
  have hv : keysSortedListB (m.vertices.map jsonOfQVert) = true :=
    keysSortedListB_all _
      (by intro x hx; obtain ⟨v, _, rfl⟩ := List.mem_map.mp hx; exact keysSortedB_jsonOfQVert v)
  have hg : keysSortedListB (m.vgroup.map jsonOfTri) = true :=
    keysSortedListB_all _
      (by intro x hx; obtain ⟨t, _, rfl⟩ := List.mem_map.mp hx; exact keysSortedB_jsonOfTri t)
  have e1 : strLe "vertices" "vgroup" = true := by decide
  have e2 : strLe "grouping" "triangles" = true := by decide
  have e3 : strLe "interleaved" "values" = true := by decide
  simp [meshDict, keysSortedB, keysSortedKVsB, keyChain, hv, hg, e1, e2, e3]

theorem qfloor_eq_floor (q : ℚ) : qfloor q = ⌊q⌋ := Rat.floor_def.symm

/-- `x` is an exact multiple of `10⁻⁶`: the value grid every rounded
component lies on. -/
def sixDec (x : ℚ) : Prop := ∃ z : ℤ, x = (z : ℚ) / 10^6

theorem round_sixDec (x : ℚ) : sixDec (round_ x) := ⟨roundHalfEven (x * 10^6), rfl⟩

theorem roundHalfEven_example : roundHalfEven ((1234567 : ℚ) / 10) = 123457 := by
  have hf : qfloor ((1234567 : ℚ) / 10) = 123456 := by
    rw [qfloor_eq_floor, Int.floor_eq_iff]
    constructor
    · norm_num
    · norm_num
  rw [roundHalfEven, hf]
  norm_num

theorem round_example : round_ ((1234567 : ℚ) / 10^7) = (123457 : ℚ) / 10^6 := by
  have h : (1234567 : ℚ) / 10^7 * 10^6 = (1234567 : ℚ) / 10 := by norm_num
  rw [round_, h, roundHalfEven_example]
  norm_num

theorem roundHalfEven_intCast (z : ℤ) : roundHalfEven ((z : ℤ) : ℚ) = z := by
  have hf : qfloor ((z : ℤ) : ℚ) = z := by
    rw [qfloor_eq_floor]; exact Int.floor_intCast z
  simp only [roundHalfEven, hf]
  norm_num

theorem round6_intCast (z : ℤ) : round_ ((z : ℤ) : ℚ) = ((z : ℤ) : ℚ) := by
  have h1 : ((z : ℤ) : ℚ) * 10^6 = (((z * 10^6 : ℤ)) : ℚ) := by push_cast; ring
  rw [round_, h1, roundHalfEven_intCast]
  push_cast
  ring

theorem round6_zero : round_ 0 = 0 := by
  have h := round6_intCast 0
  norm_num at h
  exact h

theorem round6_one : round_ 1 = 1 := by
  have h := round6_intCast 1
  norm_num at h
  exact h

theorem renderFloat_zero : renderFloat 0 = "0.0" := by
  have h0 : qfloor (|(0 : ℚ)| * 10^6) = 0 := by
    rw [qfloor_eq_floor]
    norm_num
  have h1 : ¬ ((0 : ℚ) < 0) := by norm_num
  simp only [renderFloat, h0, if_neg h1]
  rfl

theorem renderFloat_one : renderFloat 1 = "1.0" := by
  have h0 : qfloor (|(1 : ℚ)| * 10^6) = 1000000 := by
    rw [qfloor_eq_floor]
    norm_num
  have h1 : ¬ ((1 : ℚ) < 0) := by norm_num
  simp only [renderFloat, h0, if_neg h1]
  rfl

theorem renderFloat_example : renderFloat ((123457 : ℚ) / 10^6) = "0.123457" := by
  have h0 : qfloor (|(123457 : ℚ) / 10^6| * 10^6) = 123457 := by
    rw [qfloor_eq_floor, abs_of_nonneg (by positivity : (0:ℚ) ≤ (123457 : ℚ) / 10^6)]
    rw [show ((123457 : ℚ) / 10^6 * 10^6 = ((123457 : ℤ) : ℚ)) by norm_num]
    exact Int.floor_intCast 123457
  have h1 : ¬ ((123457 : ℚ) / 10^6 < 0) := by norm_num
  simp only [renderFloat, h0, if_neg h1]
  rfl

/-- A `QuaazarMesh` with no vertices and no triangles. -/
def emptyQm : QuaazarMesh := { vertices := [], vgroup := [] }

/-- Host mesh whose single vertex has the position component `0.1234567` of
the spec's rounding scenario. -/
def rawRound : RawMesh :=
  { name := "round", vertices := [{ co := (1234567/10^7, 0, 0), normal := (0, 0, 1) }]
    polygons := [], loops := [] }

/-- The conversion of `rawRound`: position rounded to `0.123457`. -/
def qmRound : QuaazarMesh :=
  { vertices := [{ pos := (123457/10^6, 0, 0), nor := (0, 0, 1), extra := [] }]
    vgroup := [] }

/-- Host mesh whose loop sequence has length 4 (not a multiple of 3). -/
def rawPartial : RawMesh :=
  { name := "partial", vertices := [], polygons := [], loops := [0, 1, 2, 0] }

/-- Host mesh with a loop sequence of length 3. -/
def rawTriple : RawMesh :=
  { name := "triple", vertices := [], polygons := [], loops := [0, 1, 2] }

/-- Host mesh containing a quadrangle polygon. -/
def rawQuad : RawMesh :=
  { name := "quad", vertices := [], polygons := [[0, 1, 2, 3]], loops := [] }

/-- Host mesh that exports successfully (trivially all-triangles). -/
def rawOk : RawMesh := { name := "ok", vertices := [], polygons := [], loops := [] }

theorem toQuaazarMesh_rawRound : toQuaazarMesh rawRound = some qmRound := by
  rw [toQuaazarMesh_eq, if_pos (show (3:ℕ) ∣ rawRound.loops.length by decide)]
  simp [rawRound, qmRound, qvOfRaw, strideTriples, round_example, round6_zero, round6_one]

theorem toQuaazarMesh_rawOk : toQuaazarMesh rawOk = some emptyQm := by
  rw [toQuaazarMesh_eq, if_pos (show (3:ℕ) ∣ rawOk.loops.length by decide)]
  simp [rawOk, emptyQm, strideTriples]

theorem toJSON_qmRound :
    QuaazarMesh.toJSON qmRound false =
      "\x7b\"vertices\": \x7b\"interleaved\": true, \"values\": [[[0.123457, 0.0, 0.0], [0.0, 0.0, 1.0], []]]\x7d, \"vgroup\": \x7b\"grouping\": \"triangles\", \"triangles\": []\x7d\x7d" := by
  rw [toJSON_eq]
  show renderC (meshDict qmRound) = _
  simp only [meshDict, qmRound, jsonOfQVert, jsonOfTri, List.map, renderC, renderCList,
    renderCObj, renderFloat_example, renderFloat_zero, renderFloat_one]
  rfl

theorem execute_rawOk :
    execute (some rawOk) false =
      { msgs := [⟨.info, "exporting \x27ok\x27"⟩]
        fileWritten := some (QuaazarMesh.toJSON emptyQm false)
        status := some "FINISHED" } := by
  simp only [execute, toQuaazarMesh_rawOk]
  rfl

/-- C1: claimed: `sparse = true` yields the most compact valid JSON with no
extraneous whitespace and `sparse = false` yields a 2-space-indented pretty
print. The code does the opposite: line 71 passes `indent=2` to `json.dumps`
exactly when `sparse` is true, contradicting the operator property's own
description ("Should the output file be sparse?"); moreover the
`indent=None` mode keeps the default `", "`/`": "` separators, so even it is
not free of extraneous whitespace. This theorem evaluates both modes on a
mesh with no vertices and no triangles. -/
theorem toJSON_sparse_flag_behavior :
    QuaazarMesh.toJSON emptyQm true =
      "\x7b\n  \"vertices\": \x7b\n    \"interleaved\": true,\n    \"values\": []\n  \x7d,\n  \"vgroup\": \x7b\n    \"grouping\": \"triangles\",\n    \"triangles\": []\n  \x7d\n\x7d" ∧
    QuaazarMesh.toJSON emptyQm false =
      "\x7b\"vertices\": \x7b\"interleaved\": true, \"values\": []\x7d, \"vgroup\": \x7b\"grouping\": \"triangles\", \"triangles\": []\x7d\x7d" :=
  ⟨rfl, rfl⟩

/-- C2 (counterexample): on a loop sequence of length 4 the conversion does
not terminate normally with `floor(4/3) = 1` triangle as claimed: the loop
body reads `loops[i+1]` and `loops[i+2]` without a bounds check, so the
walk raises `IndexError` (modelled by `none`) instead of silently dropping
the final partial stride. -/
theorem convert_partial_stride_error : toQuaazarMesh rawPartial = none := by
  rw [toQuaazarMesh_eq, if_neg (show ¬ (3:ℕ) ∣ rawPartial.loops.length by decide)]

/-- C2 (amended): when the loop-sequence length is a multiple of 3, the
conversion terminates without error and produces exactly `len(loops)/3`
triangles, each built from three consecutive loop entries in order;
when it is not a multiple of 3 the conversion raises `IndexError`
(no silent truncation). -/
theorem convert_stride_triples (msh : RawMesh) :
    (3 ∣ msh.loops.length →
      toQuaazarMesh msh =
        some { vertices := msh.vertices.map qvOfRaw, vgroup := strideTriples msh.loops } ∧
      (strideTriples msh.loops).length = msh.loops.length / 3) ∧
    (¬ 3 ∣ msh.loops.length → toQuaazarMesh msh = none) := by
  constructor
  · intro h
    rw [toQuaazarMesh_eq, if_pos h]
    exact ⟨rfl, strideTriples_length _⟩
  · intro h
    rw [toQuaazarMesh_eq, if_neg h]

theorem convert_stride_triples_witness :
    toQuaazarMesh rawTriple =
      some { vertices := rawTriple.vertices.map qvOfRaw, vgroup := strideTriples rawTriple.loops } ∧
    (strideTriples rawTriple.loops).length = rawTriple.loops.length / 3 :=
  (convert_stride_triples rawTriple).1 (by decide)

theorem hasOnlyTrisGo_iff (l : List (List ℕ)) :
    hasOnlyTrisGo l = true ↔ ∀ p ∈ l, p.length ≤ 3 := by
  induction l with
  | nil => simp [hasOnlyTrisGo]
  | cons p t ih =>
      rw [hasOnlyTrisGo]
      by_cases hp : p.length > 3
      · rw [if_pos hp]
        constructor
        · intro h
          simp at h
        · intro h
          exact absurd (h p (List.mem_cons_self p t)) (by omega)
      · rw [if_neg hp, ih]
        constructor
        · intro h q hq
          rcases List.mem_cons.mp hq with hq1 | hq2
          · subst hq1; omega
          · exact h q hq2
        · intro h q hq
          exact h q (List.mem_cons_of_mem p hq)

/-- C3: `hasOnlyTris` is a pure predicate returning true exactly when every
polygon has at most 3 vertices (polygons with fewer than 3 vertices are
accepted too), and false exactly when some polygon has more than 3. -/
theorem hasOnlyTris_iff (msh : RawMesh) :
    hasOnlyTris msh = true ↔ ∀ p ∈ msh.polygons, p.length ≤ 3 :=
  hasOnlyTrisGo_iff msh.polygons

theorem hasOnlyTris_iff_witness :
    hasOnlyTris { name := "w3", vertices := [], polygons := [[0, 1, 2], [0, 1]], loops := [] } = true :=
  (hasOnlyTris_iff _).mpr (by decide)

/-- C4: a successful conversion preserves vertex count and vertex order:
the output vertex list has the same length as the input list, output
vertex `i` carries the position and normal of input vertex `i` with each
component rounded by `round_`, and its reserved extra field is the empty
sequence. -/
theorem convert_preserves_vertices (msh : RawMesh) (qm : QuaazarMesh)
    (h : toQuaazarMesh msh = some qm) :
    qm.vertices.length = msh.vertices.length ∧
    (∀ i (h1 : i < qm.vertices.length) (h2 : i < msh.vertices.length),
      qm.vertices[i].pos =
        (round_ msh.vertices[i].co.1, round_ msh.vertices[i].co.2.1,
          round_ msh.vertices[i].co.2.2) ∧
      qm.vertices[i].nor =
        (round_ msh.vertices[i].normal.1, round_ msh.vertices[i].normal.2.1,
          round_ msh.vertices[i].normal.2.2) ∧
      qm.vertices[i].extra = []) := by
  rw [toQuaazarMesh_eq] at h
  by_cases hd : 3 ∣ msh.loops.length
  · rw [if_pos hd, Option.some_inj] at h
    subst h
    refine ⟨by simp, ?_⟩
    intro i h1 h2
    simp [List.getElem_map, qvOfRaw]
  · rw [if_neg hd] at h
    exact Option.noConfusion h

theorem convert_preserves_vertices_witness :
    qmRound.vertices.length = rawRound.vertices.length ∧
    (∀ i (h1 : i < qmRound.vertices.length) (h2 : i < rawRound.vertices.length),
      qmRound.vertices[i].pos =
        (round_ rawRound.vertices[i].co.1, round_ rawRound.vertices[i].co.2.1,
          round_ rawRound.vertices[i].co.2.2) ∧
      qmRound.vertices[i].nor =
        (round_ rawRound.vertices[i].normal.1, round_ rawRound.vertices[i].normal.2.1,
          round_ rawRound.vertices[i].normal.2.2) ∧
      qmRound.vertices[i].extra = []) :=
  convert_preserves_vertices rawRound qmRound toQuaazarMesh_rawRound

/-- C5: with no active object the operator logs an error-level message and
writes no file; with a mesh that is not all-triangles it logs a
warning-level message naming the mesh and writes no file; and a file is
written only in the success outcome, which logs an info-level message
naming the mesh and writes the mesh's JSON. -/
theorem execute_file_discipline (ao : Option RawMesh) (sparse : Bool) :
    ((execute none sparse).msgs = [⟨.error, "no mesh selected"⟩] ∧
      (execute none sparse).fileWritten = none) ∧
    (∀ msh, hasOnlyTris msh = false →
      (execute (some msh) sparse).msgs =
        [⟨.warning,
          "\x27" ++ msh.name ++ "\x27 is not elegible to export, please convert quadrangles to triangles"⟩] ∧
      (execute (some msh) sparse).fileWritten = none) ∧
    (∀ s, (execute ao sparse).fileWritten = some s →
      ∃ msh qm, ao = some msh ∧ hasOnlyTris msh = true ∧ toQuaazarMesh msh = some qm ∧
        s = qm.toJSON sparse ∧
        (execute ao sparse).msgs = [⟨.info, "exporting \x27" ++ msh.name ++ "\x27"⟩]) := by
  refine ⟨⟨rfl, rfl⟩, ?_, ?_⟩
  · intro msh h
    simp [execute, h]
  · intro s hs
    cases ao with
    | none => simp [execute] at hs
    | some msh =>
        by_cases ht : hasOnlyTris msh = true
        · cases hq : toQuaazarMesh msh with
          | none => simp [execute, ht, hq] at hs
          | some qm =>
              simp only [execute, ht, Bool.not_true, Bool.false_eq_true, if_false, hq] at hs
              exact ⟨msh, qm, rfl, ht, hq, by simp at hs; exact hs.symm,
                by simp [execute, ht, hq]⟩
        · rw [Bool.not_eq_true] at ht
          simp [execute, ht] at hs

theorem execute_file_discipline_witness :
    ((execute (some rawQuad) false).msgs =
        [⟨.warning,
          "\x27" ++ rawQuad.name ++ "\x27 is not elegible to export, please convert quadrangles to triangles"⟩] ∧
      (execute (some rawQuad) false).fileWritten = none) ∧
    (∃ msh qm, (some rawOk : Option RawMesh) = some msh ∧ hasOnlyTris msh = true ∧
      toQuaazarMesh msh = some qm ∧
      QuaazarMesh.toJSON emptyQm false = qm.toJSON false ∧
      (execute (some rawOk) false).msgs = [⟨.info, "exporting \x27" ++ msh.name ++ "\x27"⟩]) :=
  ⟨(execute_file_discipline (some rawQuad) false).2.1 rawQuad (by decide),
   (execute_file_discipline (some rawOk) false).2.2 (QuaazarMesh.toJSON emptyQm false)
     (by rw [execute_rawOk])⟩

/-- C6: for every mesh and either flag value, the serialized output is the
rendering of a JSON tree all of whose objects have their keys in
alphabetical (code-point ascending) order at every nesting level; the
renderers emit object entries in tree order, so the keys appear
alphabetically in the output text. -/
theorem toJSON_keys_alphabetical (m : QuaazarMesh) (sparse : Bool) :
    ∃ t : JVal, m.toJSON sparse = (if sparse then renderP t 0 else renderC t) ∧
      keysSortedB t = true :=
  ⟨meshDict m, toJSON_eq m sparse, keysSortedB_meshDict m⟩

/-- C7: for every mesh and either flag value, the serialized output is the
rendering of a structural tree with exactly two top-level keys:
`"vertices"` (an object with `"interleaved": true` and `"values"` holding
one `[position, normal, extra]` triple per vertex in vertex order) and
`"vgroup"` (an object with `"grouping": "triangles"` and `"triangles"`
holding one `[i0, i1, i2]` triple per triangle in triangle order). -/
theorem toJSON_structure (m : QuaazarMesh) (sparse : Bool) :
    ∃ t : JVal,
      t = JVal.jobj
        [("vertices", JVal.jobj
            [("interleaved", JVal.jbool true),
             ("values", JVal.jarr (m.vertices.map (fun v =>
               JVal.jarr
                 [JVal.jarr [JVal.jflt v.pos.1, JVal.jflt v.pos.2.1, JVal.jflt v.pos.2.2],
                  JVal.jarr [JVal.jflt v.nor.1, JVal.jflt v.nor.2.1, JVal.jflt v.nor.2.2],
                  JVal.jarr (v.extra.map JVal.jflt)])))]),
         ("vgroup", JVal.jobj
            [("grouping", JVal.jstr "triangles"),
             ("triangles", JVal.jarr (m.vgroup.map (fun tr =>
               JVal.jarr [JVal.jint tr.1, JVal.jint tr.2.1, JVal.jint tr.2.2])))])] ∧
      m.toJSON sparse = (if sparse then renderP t 0 else renderC t) :=
  ⟨meshDict m, rfl, toJSON_eq m sparse⟩

/-- C8: every position and normal component of a converted vertex is the
six-decimal rounding of the corresponding input component, hence an exact
multiple of 10⁻⁶; in particular the input position component `0.1234567`
rounds to `0.123457` and serializes as the text `0.123457`. -/
theorem serialized_components_rounded :
    (∀ x : ℚ, sixDec (round_ x)) ∧
    (∀ msh qm, toQuaazarMesh msh = some qm →
      ∀ v ∈ qm.vertices,
        (sixDec v.pos.1 ∧ sixDec v.pos.2.1 ∧ sixDec v.pos.2.2) ∧
        (sixDec v.nor.1 ∧ sixDec v.nor.2.1 ∧ sixDec v.nor.2.2)) ∧
    round_ ((1234567 : ℚ) / 10^7) = (123457 : ℚ) / 10^6 ∧
    toQuaazarMesh rawRound = some qmRound ∧
    QuaazarMesh.toJSON qmRound false =
      "\x7b\"vertices\": \x7b\"interleaved\": true, \"values\": [[[0.123457, 0.0, 0.0], [0.0, 0.0, 1.0], []]]\x7d, \"vgroup\": \x7b\"grouping\": \"triangles\", \"triangles\": []\x7d\x7d" := by
  refine ⟨round_sixDec, ?_, round_example, toQuaazarMesh_rawRound, toJSON_qmRound⟩
  intro msh qm h v hv
  rw [toQuaazarMesh_eq] at h
  by_cases hd : 3 ∣ msh.loops.length
  · rw [if_pos hd, Option.some_inj] at h
    subst h
    obtain ⟨w, _, rfl⟩ := List.mem_map.mp hv
    exact ⟨⟨round_sixDec _, round_sixDec _, round_sixDec _⟩,
      round_sixDec _, round_sixDec _, round_sixDec _⟩
  · rw [if_neg hd] at h
    exact Option.noConfusion h

theorem serialized_components_rounded_witness :
    ∀ v ∈ qmRound.vertices,
      (sixDec v.pos.1 ∧ sixDec v.pos.2.1 ∧ sixDec v.pos.2.2) ∧
      (sixDec v.nor.1 ∧ sixDec v.nor.2.1 ∧ sixDec v.nor.2.2) :=
  serialized_components_rounded.2.1 rawRound qmRound toQuaazarMesh_rawRound

/-- C9: serialization is deterministic: the output depends only on the mesh
content and the flag, so two meshes with equal vertex and triangle lists
serialize to byte-identical strings under the same flag (and a fortiori the
same mesh serialized twice gives identical output). -/
theorem toJSON_deterministic (m m2 : QuaazarMesh) (sparse : Bool)
    (h1 : m.vertices = m2.vertices) (h2 : m.vgroup = m2.vgroup) :
    m.toJSON sparse = m2.toJSON sparse := by
  cases m
  cases m2
  cases h1
  cases h2
  rfl

theorem toJSON_deterministic_witness :
    QuaazarMesh.toJSON emptyQm false = QuaazarMesh.toJSON emptyQm false :=
  toJSON_deterministic emptyQm emptyQm false rfl rfl

/-- C10: the operator returns the status `{'FINISHED'}` in all three
outcomes alike — no mesh selected, mesh not fully triangulated, and
successful export — so the host never observes a distinct failure status;
failures are distinguishable only by the logged message class. -/
theorem execute_status_finished (sparse : Bool) :
    ((execute none sparse).status = some "FINISHED") ∧
    (∀ msh, hasOnlyTris msh = false →
      (execute (some msh) sparse).status = some "FINISHED") ∧
    (∀ msh qm, hasOnlyTris msh = true → toQuaazarMesh msh = some qm →
      (execute (some msh) sparse).status = some "FINISHED") := by
  refine ⟨rfl, ?_, ?_⟩
  · intro msh h
    simp [execute, h]
  · intro msh qm ht hq
    simp [execute, ht, hq]

theorem execute_status_finished_witness :
    ((execute (some rawQuad) false).status = some "FINISHED") ∧
    ((execute (some rawOk) false).status = some "FINISHED") :=
  ⟨(execute_status_finished false).2.1 rawQuad (by decide),
   (execute_status_finished false).2.2 rawOk emptyQm (by decide) toQuaazarMesh_rawOk⟩
